import Mathlib

/-!
Shallow embedding of the MIVisionX "master graph" orchestration layer
(`src/rali/source/master_graph.cpp`) and of the sampled WarpAffine kernel
binding (`validateWarpAffine`), together with proofs of the specified
properties.

Conventions of the embedding:
* C++ member state is replaced by explicit structures passed and returned.
* Side effects on collaborators (parameter factory, loader modules, graph
  backend, node parameter push-down, resource frees) are recorded as event
  traces, so that ordering and multiplicity claims become statements about
  lists.
* Buffers are total functions `Nat → β`; a loop of stores is the ordered
  list of its (index, value) writes applied left to right, exactly in the
  order the C++ loops issue them.
* `float` scalars are modelled as rationals (the claims are about which
  affine expression is written where, not about rounding).
* machine-integer conversions are explicit (`Int.emod · (2 ^ 64)` for the
  int → size_t conversion in `remaining_images_count`).
-/

namespace MIVisionX

/-- Memory backend kind, `RaliMemType` in the source. -/
inductive RaliMemType
  | OCL
  | HOST
deriving DecidableEq, Repr

/-- Status of one `load_next()` call of a loader module
(`LoaderModuleStatus`); the source only tests `!= OK`. -/
inductive LoaderModuleStatus
  | OK
  | NOT_OK
deriving DecidableEq, Repr

/-- Observable side effects of `MasterGraph::run`, in the order the code
issues them. -/
inductive RunEvent
  | renewParameters
  | loadNext (loaderIdx : Nat) (result : LoaderModuleStatus)
  | graphProcess
  | updateParameters (nodeIdx : Nat)
deriving DecidableEq, Repr

/-- Outcome of `MasterGraph::run`: `ok` for `Status::OK`, the two error
constructors for the two `THROW` sites. -/
inductive RunOutcome
  | ok
  | notVerified
  | loaderFailed
deriving DecidableEq, Repr

/-- The state of a `MasterGraph` that `run()` reads: the verified flag,
the batch of results the loader modules will return from `load_next()`
this iteration, and the number of nodes. -/
structure RunState where
  graph_verfied : Bool
  loaders : List LoaderModuleStatus
  numNodes : Nat
deriving DecidableEq, Repr

/-- The loader loop of `run()`: calls `load_next()` on each loader module
in order and aborts (`THROW`) at the first result different from `OK`.
Returns the trace of `load_next` calls and whether all succeeded. -/
def loadLoop : List LoaderModuleStatus → Nat → List RunEvent × Bool
  | [], _ => ([], true)
  | st :: rest, i =>
    if st = LoaderModuleStatus.OK then
      let r := loadLoop rest (i + 1)
      (RunEvent.loadNext i st :: r.1, r.2)
    else
      ([RunEvent.loadNext i st], false)

/-- Embeds `MasterGraph::run`: fails if the graph is not verified; otherwise
renews parameters, drives every loader, executes the graph, then pushes
parameters into every node (`update_parameters` iterates `_nodes`).
`run` writes none of the modelled state fields, so the post-state is the
input state. -/
def MasterGraph.run (s : RunState) : RunOutcome × List RunEvent × RunState :=
  if !s.graph_verfied then
    (RunOutcome.notVerified, [], s)
  else
    let loads := loadLoop s.loaders 0
    if loads.2 then
      (RunOutcome.ok,
        RunEvent.renewParameters ::
          loads.1 ++
            RunEvent.graphProcess ::
              (List.range s.numNodes).map RunEvent.updateParameters,
        s)
    else
      (RunOutcome.loaderFailed, RunEvent.renewParameters :: loads.1, s)

lemma loadLoop_all_ok (loaders : List LoaderModuleStatus) (i : Nat)
    (h : ∀ st ∈ loaders, st = LoaderModuleStatus.OK) :
    loadLoop loaders i =
      ((List.range loaders.length).map
        (fun j => RunEvent.loadNext (i + j) LoaderModuleStatus.OK), true) := by
  induction loaders generalizing i with
  | nil => simp [loadLoop]
  | cons st rest ih =>
    have hst : st = LoaderModuleStatus.OK := h st (by simp)
    have hrest : ∀ s ∈ rest, s = LoaderModuleStatus.OK := fun s hs => h s (by simp [hs])
    subst hst
    rw [loadLoop, if_pos rfl, ih (i + 1) hrest]
    simp [List.range_succ_eq_map, List.map_map, Function.comp_def,
      Nat.add_comm, Nat.add_assoc, Nat.add_left_comm]

lemma loadLoop_events_are_loads (loaders : List LoaderModuleStatus) (i : Nat) :
    ∀ e ∈ (loadLoop loaders i).1, ∃ j r, e = RunEvent.loadNext j r := by
  induction loaders generalizing i with
  | nil => simp [loadLoop]
  | cons st rest ih =>
    intro e he
    by_cases hst : st = LoaderModuleStatus.OK
    · simp only [loadLoop, if_pos hst, List.mem_cons] at he
      rcases he with he | he
      · exact ⟨i, st, he⟩
      · exact ih (i + 1) e he
    · simp only [loadLoop, if_neg hst, List.mem_singleton] at he
      exact ⟨i, st, he⟩

lemma loadLoop_fails (loaders : List LoaderModuleStatus) (i : Nat)
    (h : ¬ ∀ st ∈ loaders, st = LoaderModuleStatus.OK) :
    (loadLoop loaders i).2 = false := by
  induction loaders generalizing i with
  | nil => exact absurd (by simp) h
  | cons st rest ih =>
    by_cases hst : st = LoaderModuleStatus.OK
    · have hrest : ¬ ∀ s ∈ rest, s = LoaderModuleStatus.OK := by
        intro hall
        exact h (by intro s hs; rcases List.mem_cons.mp hs with h1 | h2
                    · rw [h1]; exact hst
                    · exact hall s h2)
      simp only [loadLoop, if_pos hst]
      exact ih (i + 1) hrest
    · simp [loadLoop, if_neg hst]

lemma updateParameters_injective : Function.Injective RunEvent.updateParameters := by
  intro a b h
  injection h

/-- C2: a successful `run()` with at least one node renews parameters
exactly once, then calls `load_next` on every loader module in order, then
executes the graph, then calls `update_parameters` on every node exactly
once — in exactly that order. -/
theorem run_event_order (s : RunState)
    (hv : s.graph_verfied = true)
    (hok : ∀ st ∈ s.loaders, st = LoaderModuleStatus.OK)
    (hn : 1 ≤ s.numNodes) :
    (MasterGraph.run s).1 = RunOutcome.ok ∧
    (MasterGraph.run s).2.1 =
      RunEvent.renewParameters ::
        ((List.range s.loaders.length).map
            (fun j => RunEvent.loadNext j LoaderModuleStatus.OK) ++
          RunEvent.graphProcess ::
            (List.range s.numNodes).map RunEvent.updateParameters) ∧
    (MasterGraph.run s).2.1.count RunEvent.renewParameters = 1 ∧
    (∀ i < s.numNodes,
      (MasterGraph.run s).2.1.count (RunEvent.updateParameters i) = 1) := by
  have hload := loadLoop_all_ok s.loaders 0 hok
  have htrace : (MasterGraph.run s).2.1 =
      RunEvent.renewParameters ::
        ((List.range s.loaders.length).map
            (fun j => RunEvent.loadNext j LoaderModuleStatus.OK) ++
          RunEvent.graphProcess ::
            (List.range s.numNodes).map RunEvent.updateParameters) := by
    simp [MasterGraph.run, hv, hload]
  refine ⟨by simp [MasterGraph.run, hv, hload], htrace, ?_, ?_⟩
  · rw [htrace]
    simp [List.count_cons, List.count_append, List.count_eq_zero,
      List.mem_map]
  · intro i hi
    rw [htrace]
    have h1 : ((List.range s.loaders.length).map
        (fun j => RunEvent.loadNext j LoaderModuleStatus.OK)).count
          (RunEvent.updateParameters i) = 0 := by
      simp [List.count_eq_zero, List.mem_map]
    have h2 : ((List.range s.numNodes).map RunEvent.updateParameters).count
        (RunEvent.updateParameters i) = 1 := by
      rw [List.count_map_of_injective _ _ updateParameters_injective]
      exact List.count_eq_one_of_mem (List.nodup_range _) (List.mem_range.mpr hi)
    simp [List.count_cons, List.count_append, h1, h2]

/-- Witness for `run_event_order` at a concrete state with one loader and
one node. -/
theorem run_event_order_witness :
    (MasterGraph.run ⟨true, [LoaderModuleStatus.OK], 1⟩).1 = RunOutcome.ok ∧
    (MasterGraph.run ⟨true, [LoaderModuleStatus.OK], 1⟩).2.1 =
      RunEvent.renewParameters ::
        ((List.range (RunState.mk true [LoaderModuleStatus.OK] 1).loaders.length).map
            (fun j => RunEvent.loadNext j LoaderModuleStatus.OK) ++
          RunEvent.graphProcess ::
            (List.range (RunState.mk true [LoaderModuleStatus.OK] 1).numNodes).map
              RunEvent.updateParameters) ∧
    (MasterGraph.run ⟨true, [LoaderModuleStatus.OK], 1⟩).2.1.count
      RunEvent.renewParameters = 1 ∧
    (∀ i < (RunState.mk true [LoaderModuleStatus.OK] 1).numNodes,
      (MasterGraph.run ⟨true, [LoaderModuleStatus.OK], 1⟩).2.1.count
        (RunEvent.updateParameters i) = 1) :=
  run_event_order ⟨true, [LoaderModuleStatus.OK], 1⟩ rfl (by decide) (by decide)

/-- C3: `run()` while the verified flag is false fails with the
not-verified error, produces no side effect on loaders or backend (empty
trace), and leaves the state untouched. -/
theorem run_not_verified (s : RunState) (hv : s.graph_verfied = false) :
    MasterGraph.run s = (RunOutcome.notVerified, [], s) := by
  simp [MasterGraph.run, hv]

/-- Witness for `run_not_verified` at a concrete unverified state. -/
theorem run_not_verified_witness :
    MasterGraph.run ⟨false, [LoaderModuleStatus.OK], 2⟩ =
      (RunOutcome.notVerified, [], ⟨false, [LoaderModuleStatus.OK], 2⟩) :=
  run_not_verified ⟨false, [LoaderModuleStatus.OK], 2⟩ rfl

/-- C7: if some loader module's `load_next` fails, `run()` aborts with the
loader-failure error before the graph is executed and before any node's
`update_parameters` is called, and the verified flag remains true. -/
theorem run_loader_failure (s : RunState)
    (hv : s.graph_verfied = true)
    (hfail : ¬ ∀ st ∈ s.loaders, st = LoaderModuleStatus.OK) :
    (MasterGraph.run s).1 = RunOutcome.loaderFailed ∧
    RunEvent.graphProcess ∉ (MasterGraph.run s).2.1 ∧
    (∀ i, RunEvent.updateParameters i ∉ (MasterGraph.run s).2.1) ∧
    (MasterGraph.run s).2.2 = s ∧
    (MasterGraph.run s).2.2.graph_verfied = true := by
  have hload := loadLoop_fails s.loaders 0 hfail
  have htrace : (MasterGraph.run s).2.1 =
      RunEvent.renewParameters :: (loadLoop s.loaders 0).1 := by
    simp [MasterGraph.run, hv, hload]
  have hloads := loadLoop_events_are_loads s.loaders 0
  refine ⟨by simp [MasterGraph.run, hv, hload], ?_, ?_, ?_, ?_⟩
  · rw [htrace]
    intro hmem
    rcases List.mem_cons.mp hmem with h | h
    · exact absurd h (by simp)
    · rcases hloads _ h with ⟨j, r, hjr⟩
      exact absurd hjr (by simp)
  · intro i
    rw [htrace]
    intro hmem
    rcases List.mem_cons.mp hmem with h | h
    · exact absurd h (by simp)
    · rcases hloads _ h with ⟨j, r, hjr⟩
      exact absurd hjr (by simp)
  · simp [MasterGraph.run, hv, hload]
  · simp [MasterGraph.run, hv, hload]

/-- Witness for `run_loader_failure` at a concrete state whose single
loader fails. -/
theorem run_loader_failure_witness :
    (MasterGraph.run ⟨true, [LoaderModuleStatus.NOT_OK], 1⟩).1 =
      RunOutcome.loaderFailed ∧
    RunEvent.graphProcess ∉
      (MasterGraph.run ⟨true, [LoaderModuleStatus.NOT_OK], 1⟩).2.1 ∧
    (∀ i, RunEvent.updateParameters i ∉
      (MasterGraph.run ⟨true, [LoaderModuleStatus.NOT_OK], 1⟩).2.1) ∧
    (MasterGraph.run ⟨true, [LoaderModuleStatus.NOT_OK], 1⟩).2.2 =
      ⟨true, [LoaderModuleStatus.NOT_OK], 1⟩ ∧
    (MasterGraph.run ⟨true, [LoaderModuleStatus.NOT_OK], 1⟩).2.2.graph_verfied =
      true :=
  run_loader_failure ⟨true, [LoaderModuleStatus.NOT_OK], 1⟩ rfl (by decide)

/-- Embeds `ImageInfo`: the per-image descriptor the master graph compares and
reads sizes from (`width()`, `height_batch()`, `color_plane_count()`,
`color_format()`, `mem_type()`); equality is field-wise. -/
structure ImageInfo where
  width : Nat
  height_batch : Nat
  color_plane_count : Nat
  color_format : Nat
  mem_type : RaliMemType
deriving DecidableEq, Repr

/-- Embeds `MasterGraph::allocate_output_tensor`: the float-element count of the
unified output tensor is width × batch-height × plane-count ×
number-of-output-images; a device buffer of that many `cl_float`s is
created only for the OCL memory type (the host path allocates nothing and
leaves `_output_tensor` as it was). The result is the new value of
`_output_tensor`, as the number of float elements it can hold. -/
def allocate_output_tensor (info : ImageInfo) (numOutputs : Nat)
    (output_tensor : Option Nat) : Option Nat :=
  let output_float_buffer_size :=
    info.width * info.height_batch * info.color_plane_count * numOutputs
  match info.mem_type with
  | RaliMemType.OCL => some output_float_buffer_size
  | RaliMemType.HOST => output_tensor

/-- The `MasterGraph` state that `build()` reads and writes. `graph` is
true once `create_single_graph` has run. -/
structure BuildState where
  output_images : List ImageInfo
  output_image_info : ImageInfo
  output_tensor : Option Nat
  graph : Bool
  graph_verfied : Bool
deriving DecidableEq, Repr

/-- Outcome of `build()`: `ok`, or one of its two `THROW` sites. -/
inductive BuildOutcome
  | ok
  | noOutputImages
  | dimMismatch
deriving DecidableEq, Repr

/-- Embeds `MasterGraph::build`: clears the verified flag, fails if there is no
output image, caches the first output image's info, fails if any output
image's info differs from it, then allocates the output tensor, creates
the graph, and sets the verified flag. -/
def MasterGraph.build (s : BuildState) : BuildOutcome × BuildState :=
  let s0 : BuildState := { s with graph_verfied := false }
  match s0.output_images with
  | [] => (BuildOutcome.noOutputImages, s0)
  | front :: _ =>
    let s1 : BuildState := { s0 with output_image_info := front }
    if ∀ oi ∈ s1.output_images, oi = front then
      (BuildOutcome.ok,
        { s1 with
          output_tensor :=
            allocate_output_tensor front s1.output_images.length s1.output_tensor,
          graph := true,
          graph_verfied := true })
    else
      (BuildOutcome.dimMismatch, s1)

/-- C4: `build()` on an empty output-image list, or on a list holding two
differing `ImageInfo`s, fails, leaves the verified flag false, allocates
no tensor and creates no graph. -/
theorem build_failure (s : BuildState)
    (h : s.output_images = [] ∨
      ∃ a ∈ s.output_images, ∃ b ∈ s.output_images, a ≠ b) :
    (MasterGraph.build s).1 ≠ BuildOutcome.ok ∧
    (MasterGraph.build s).2.graph_verfied = false ∧
    (MasterGraph.build s).2.output_tensor = s.output_tensor ∧
    (MasterGraph.build s).2.graph = s.graph := by
  rcases h with hempty | ⟨a, ha, b, hb, hab⟩
  · simp [MasterGraph.build, hempty]
  · match hl : s.output_images with
    | [] => simp [hl] at ha
    | front :: rest =>
      have hne : ¬ ∀ oi ∈ s.output_images, oi = front := by
        intro hall
        exact hab ((hall a ha).trans (hall b hb).symm)
      rw [hl] at hne
      simp only [List.forall_mem_cons, forall_eq, true_and, not_and] at hne
      simp [MasterGraph.build, hl, hne]

/-- Witness for `build_failure`: two output images differing in width. -/
theorem build_failure_witness :
    (MasterGraph.build
      ⟨[⟨2, 2, 3, 0, RaliMemType.HOST⟩, ⟨4, 2, 3, 0, RaliMemType.HOST⟩],
        ⟨0, 0, 0, 0, RaliMemType.HOST⟩, none, false, false⟩).1 ≠
      BuildOutcome.ok ∧
    (MasterGraph.build
      ⟨[⟨2, 2, 3, 0, RaliMemType.HOST⟩, ⟨4, 2, 3, 0, RaliMemType.HOST⟩],
        ⟨0, 0, 0, 0, RaliMemType.HOST⟩, none, false, false⟩).2.graph_verfied =
      false ∧
    (MasterGraph.build
      ⟨[⟨2, 2, 3, 0, RaliMemType.HOST⟩, ⟨4, 2, 3, 0, RaliMemType.HOST⟩],
        ⟨0, 0, 0, 0, RaliMemType.HOST⟩, none, false, false⟩).2.output_tensor =
      (BuildState.mk [⟨2, 2, 3, 0, RaliMemType.HOST⟩, ⟨4, 2, 3, 0, RaliMemType.HOST⟩]
        ⟨0, 0, 0, 0, RaliMemType.HOST⟩ none false false).output_tensor ∧
    (MasterGraph.build
      ⟨[⟨2, 2, 3, 0, RaliMemType.HOST⟩, ⟨4, 2, 3, 0, RaliMemType.HOST⟩],
        ⟨0, 0, 0, 0, RaliMemType.HOST⟩, none, false, false⟩).2.graph =
      (BuildState.mk [⟨2, 2, 3, 0, RaliMemType.HOST⟩, ⟨4, 2, 3, 0, RaliMemType.HOST⟩]
        ⟨0, 0, 0, 0, RaliMemType.HOST⟩ none false false).graph :=
  build_failure
    ⟨[⟨2, 2, 3, 0, RaliMemType.HOST⟩, ⟨4, 2, 3, 0, RaliMemType.HOST⟩],
      ⟨0, 0, 0, 0, RaliMemType.HOST⟩, none, false, false⟩
    (Or.inr ⟨⟨2, 2, 3, 0, RaliMemType.HOST⟩, by decide,
      ⟨4, 2, 3, 0, RaliMemType.HOST⟩, by decide, by decide⟩)

/-- A resource freed during `MasterGraph::release`: the compiled graph
(`_graph->release()`), the OpenVX context (`vxReleaseContext`), one owned
`Image` (identified by its pointer, `delete image`), or the OCL output
tensor (`clReleaseMemObject`). -/
inductive Resource
  | graphHandle
  | vxContext
  | image (id : Nat)
  | clTensor
deriving DecidableEq, Repr

/-- The `MasterGraph` state that `release()` reads and writes.
`graph`, `context`, `output_tensor` record whether the corresponding
handle is non-null; the image lists hold the pointers stored in
`_internal_images` and `_output_images`. -/
structure ReleaseState where
  graph_verfied : Bool
  graph : Bool
  context : Bool
  internal_images : List Nat
  output_images : List Nat
  output_tensor : Bool
  mem_type : RaliMemType
deriving DecidableEq, Repr

/-- Embeds `MasterGraph::release`: clears the verified flag, releases the graph
if non-null (without nulling `_graph`), releases the context if non-null
(`vxReleaseContext` nulls `_context`), deletes every image held in
`_internal_images` and then `_output_images` (the vectors are not
cleared), and releases the OCL output tensor if present (without nulling
`_output_tensor`). Returns the post-state and the ordered list of freed
resources. -/
def MasterGraph.release (s : ReleaseState) : ReleaseState × List Resource :=
  let graphEvents := if s.graph then [Resource.graphHandle] else []
  let contextEvents := if s.context then [Resource.vxContext] else []
  let imageEvents := (s.internal_images ++ s.output_images).map Resource.image
  let tensorEvents :=
    if s.mem_type = RaliMemType.OCL ∧ s.output_tensor = true then
      [Resource.clTensor]
    else []
  ({ s with graph_verfied := false, context := false },
    graphEvents ++ contextEvents ++ imageEvents ++ tensorEvents)

/-- The resources freed by calling `release()` twice in a row (equally:
by an explicit `release()` followed by the destructor, which calls
`release()` again). -/
def releaseTwiceTrace (s : ReleaseState) : List Resource :=
  (MasterGraph.release s).2 ++ (MasterGraph.release (MasterGraph.release s).1).2

/-- C6 failing input: a built graph owning one output image (pointer 7)
and a compiled graph handle. The second `release()` deletes the same
`Image` pointer again (the image vectors are never cleared) and calls
`_graph->release()` on the same handle again; only the context release is
guarded by the nulling of `_context`. -/
theorem release_twice_double_frees :
    (releaseTwiceTrace ⟨true, true, true, [], [7], false, RaliMemType.HOST⟩).count
        (Resource.image 7) = 2 ∧
    (releaseTwiceTrace ⟨true, true, true, [], [7], false, RaliMemType.HOST⟩).count
        Resource.graphHandle = 2 ∧
    (releaseTwiceTrace ⟨true, true, true, [], [7], false, RaliMemType.HOST⟩).count
        Resource.vxContext = 1 := by
  decide

/-- The two `MasterGraph::Status` values this translation unit returns. -/
inductive MGStatus
  | OK
  | NOT_IMPLEMENTED
deriving DecidableEq, Repr

/-- State visible to the `cl_mem` overload of `copy_output`: the
lifecycle flag and the `_convert_time` bookkeeping counters
(`start()`/`end()` invocations). -/
structure ClCopyState where
  graph_verfied : Bool
  convert_time_starts : Nat
  convert_time_ends : Nat
deriving DecidableEq, Repr

/-- Embeds `MasterGraph::copy_output(cl_mem, size_t)`: its first statement is
`return Status::NOT_IMPLEMENTED;`, so the trailing
`_convert_time.start(); _convert_time.end(); return Status::OK;` is
unreachable and the function returns with the state untouched. -/
def MasterGraph.copy_output_cl (s : ClCopyState) (out_size : Nat) :
    MGStatus × ClCopyState :=
  (MGStatus.NOT_IMPLEMENTED, s)

/-- C9: the `cl_mem` overload of `copy_output` returns
`Status::NOT_IMPLEMENTED` unconditionally, with no copy and no state
mutation (not even the conversion-time bookkeeping), in every lifecycle
state. -/
theorem copy_output_cl_not_implemented (s : ClCopyState) (out_size : Nat) :
    MasterGraph.copy_output_cl s out_size = (MGStatus.NOT_IMPLEMENTED, s) :=
  rfl

/-- The C++ conversion from (64-bit-widened) signed `int` to `size_t`:
reduction modulo 2^64. -/
def size_t_of_int (x : Int) : Nat := (x % (2 ^ 64)).toNat

/-- Embeds `MasterGraph::remaining_images_count`: starts the accumulator `ret`
at `-1`, replaces it by the first loader's count and thereafter by any
strictly smaller count, and converts the final signed accumulator to
`size_t` on return. `counts` lists each loader module's `count()`. -/
def MasterGraph.remaining_images_count (counts : List Int) : Nat :=
  size_t_of_int
    (counts.foldl
      (fun ret thisLoaderCount =>
        if ret = -1 then thisLoaderCount
        else if thisLoaderCount < ret then thisLoaderCount else ret)
      (-1))

lemma foldl_count_step_eq_min (l : List Int) (a : Int) (ha : 0 ≤ a)
    (hl : ∀ x ∈ l, 0 ≤ x) :
    l.foldl
      (fun ret thisLoaderCount =>
        if ret = -1 then thisLoaderCount
        else if thisLoaderCount < ret then thisLoaderCount else ret)
      a = l.foldl min a := by
  induction l generalizing a with
  | nil => rfl
  | cons x rest ih =>
    have hx : 0 ≤ x := hl x (by simp)
    have hne : ¬ a = -1 := by omega
    have hrest : ∀ y ∈ rest, 0 ≤ y := fun y hy => hl y (by simp [hy])
    simp only [List.foldl_cons, if_neg hne]
    by_cases hlt : x < a
    · rw [if_pos hlt, ih x hx hrest]
      have : min a x = x := by omega
      rw [this]
    · rw [if_neg hlt, ih a ha hrest]
      have : min a x = a := by omega
      rw [this]

lemma foldl_min_mem (l : List Int) (a : Int) :
    l.foldl min a = a ∨ l.foldl min a ∈ l := by
  induction l generalizing a with
  | nil => left; rfl
  | cons x rest ih =>
    simp only [List.foldl_cons]
    rcases ih (min a x) with h | h
    · rw [h]
      by_cases hxa : x < a
      · right; simp; left; omega
      · left; omega
    · right; simp [h]

lemma foldl_min_le (l : List Int) (a : Int) :
    l.foldl min a ≤ a ∧ ∀ x ∈ l, l.foldl min a ≤ x := by
  induction l generalizing a with
  | nil => simp
  | cons x rest ih =>
    simp only [List.foldl_cons]
    rcases ih (min a x) with ⟨h1, h2⟩
    refine ⟨by omega, ?_⟩
    intro y hy
    rcases List.mem_cons.mp hy with h | h
    · subst h; omega
    · exact h2 y h

/-- C10: with no loader modules, `remaining_images_count` returns the
signed value `-1` converted to `size_t`, i.e. `2^64 - 1`, not `0`; with
loader modules present (and counts in the non-negative `int` range) it
returns the minimum of the loaders' counts. -/
theorem remaining_images_count_spec (counts : List Int)
    (hrange : ∀ x ∈ counts, 0 ≤ x ∧ x < 2 ^ 31) :
    (counts = [] →
      MasterGraph.remaining_images_count counts = 2 ^ 64 - 1) ∧
    (counts ≠ [] →
      ((MasterGraph.remaining_images_count counts : Int) ∈ counts ∧
        ∀ x ∈ counts, (MasterGraph.remaining_images_count counts : Int) ≤ x)) := by
  constructor
  · intro h
    subst h
    decide
  · intro hne
    match counts, hne with
    | c0 :: rest, _ =>
      have hc0 : 0 ≤ c0 ∧ c0 < 2 ^ 31 := hrange c0 (by simp)
      have hrest : ∀ x ∈ rest, 0 ≤ x := fun x hx => (hrange x (by simp [hx])).1
      have hfold : MasterGraph.remaining_images_count (c0 :: rest) =
          size_t_of_int (rest.foldl min c0) := by
        simp only [MasterGraph.remaining_images_count, List.foldl_cons]
        norm_num
        rw [foldl_count_step_eq_min rest c0 hc0.1 hrest]
      set m := rest.foldl min c0 with hm
      have hmem : m = c0 ∨ m ∈ rest := foldl_min_mem rest c0
      have hle : m ≤ c0 ∧ ∀ x ∈ rest, m ≤ x := foldl_min_le rest c0
      have hm0 : 0 ≤ m := by
        rcases hmem with h | h
        · omega
        · exact hrest m h
      have hmlt : m < 2 ^ 64 := by
        have := hc0.2
        omega
      have hcast : (MasterGraph.remaining_images_count (c0 :: rest) : Int) = m := by
        rw [hfold]
        unfold size_t_of_int
        rw [Int.emod_eq_of_lt hm0 hmlt]
        omega
      rw [hcast]
      constructor
      · rcases hmem with h | h
        · simp [h]
        · simp [h]
      · intro x hx
        rcases List.mem_cons.mp hx with h | h
        · subst h; exact hle.1
        · exact hle.2 x h

/-- Witness for `remaining_images_count_spec` with two loaders holding 3
and 2 remaining images. -/
theorem remaining_images_count_witness :
    (([3, 2] : List Int) = [] →
      MasterGraph.remaining_images_count [3, 2] = 2 ^ 64 - 1) ∧
    (([3, 2] : List Int) ≠ [] →
      ((MasterGraph.remaining_images_count [3, 2] : Int) ∈ ([3, 2] : List Int) ∧
        ∀ x ∈ ([3, 2] : List Int),
          (MasterGraph.remaining_images_count [3, 2] : Int) ≤ x)) :=
  remaining_images_count_spec [3, 2] (by decide)

/-- The OpenVX scalar types `validateWarpAffine` distinguishes. -/
inductive VxType
  | int32
  | float32
  | otherType
deriving DecidableEq, Repr

/-- OpenVX image formats relevant to the WarpAffine binding. -/
inductive VxDfImage
  | U8
  | RGB
  | RGBX
  | NV12
  | VIRT
deriving DecidableEq, Repr

/-- The OpenVX status codes `validateWarpAffine` can return. -/
inductive VxStatus
  | success
  | errorInvalidType
  | errorInvalidValue
deriving DecidableEq, Repr

/-- The inputs `validateWarpAffine` queries: the types of scalar
parameters #2–#9, the input image's format (parameter #0), and the output
image's declared height and width (parameter #1). -/
structure WarpAffineParams where
  scalar2 : VxType
  scalar3 : VxType
  scalar4 : VxType
  scalar5 : VxType
  scalar6 : VxType
  scalar7 : VxType
  scalar8 : VxType
  scalar9 : VxType
  inputFormat : VxDfImage
  outputHeight : Nat
  outputWidth : Nat
deriving DecidableEq, Repr

/-- The attributes `validateWarpAffine` sets on `metas[1]`, the compiled
node's output metadata. -/
structure MetaFormat where
  format : VxDfImage
  height : Nat
  width : Nat
deriving DecidableEq, Repr

/-- Embeds `validateWarpAffine`: checks scalars #2 and #3 are `VX_TYPE_INT32`
and #4–#9 are `VX_TYPE_FLOAT32` (returning an invalid-type error at the
first mismatch, leaving `metas[1]` untouched); then marks the status
invalid-value unless the input image format is `VX_DF_IMAGE_U8` or
`VX_DF_IMAGE_RGB`, writes that format into `metas[1]`, and copies the
output image's height and width into `metas[1]` before returning the
status. -/
def validateWarpAffine (p : WarpAffineParams) (meta : MetaFormat) :
    VxStatus × MetaFormat :=
  if p.scalar2 ≠ VxType.int32 then (VxStatus.errorInvalidType, meta)
  else if p.scalar3 ≠ VxType.int32 then (VxStatus.errorInvalidType, meta)
  else if p.scalar4 ≠ VxType.float32 then (VxStatus.errorInvalidType, meta)
  else if p.scalar5 ≠ VxType.float32 then (VxStatus.errorInvalidType, meta)
  else if p.scalar6 ≠ VxType.float32 then (VxStatus.errorInvalidType, meta)
  else if p.scalar7 ≠ VxType.float32 then (VxStatus.errorInvalidType, meta)
  else if p.scalar8 ≠ VxType.float32 then (VxStatus.errorInvalidType, meta)
  else if p.scalar9 ≠ VxType.float32 then (VxStatus.errorInvalidType, meta)
  else
    let status :=
      if p.inputFormat ≠ VxDfImage.U8 ∧ p.inputFormat ≠ VxDfImage.RGB then
        VxStatus.errorInvalidValue
      else VxStatus.success
    (status,
      { format := p.inputFormat,
        height := p.outputHeight,
        width := p.outputWidth })

/-- C8: with well-typed scalar parameters, `validateWarpAffine` succeeds
exactly on the `U8` and `RGB` input formats, returns the invalid-value
error on every other format, and propagates the output image's declared
height and width into the node's output metadata. -/
theorem validateWarpAffine_spec (p : WarpAffineParams) (meta : MetaFormat)
    (h2 : p.scalar2 = VxType.int32) (h3 : p.scalar3 = VxType.int32)
    (h4 : p.scalar4 = VxType.float32) (h5 : p.scalar5 = VxType.float32)
    (h6 : p.scalar6 = VxType.float32) (h7 : p.scalar7 = VxType.float32)
    (h8 : p.scalar8 = VxType.float32) (h9 : p.scalar9 = VxType.float32) :
    ((validateWarpAffine p meta).1 = VxStatus.success ↔
      p.inputFormat = VxDfImage.U8 ∨ p.inputFormat = VxDfImage.RGB) ∧
    (p.inputFormat ≠ VxDfImage.U8 → p.inputFormat ≠ VxDfImage.RGB →
      (validateWarpAffine p meta).1 = VxStatus.errorInvalidValue) ∧
    (validateWarpAffine p meta).2.height = p.outputHeight ∧
    (validateWarpAffine p meta).2.width = p.outputWidth := by
  obtain ⟨s2, s3, s4, s5, s6, s7, s8, s9, fmt, oh, ow⟩ := p
  simp only at h2 h3 h4 h5 h6 h7 h8 h9
  subst h2 h3 h4 h5 h6 h7 h8 h9
  cases fmt <;> simp [validateWarpAffine]

/-- Witness for `validateWarpAffine_spec` at a well-typed parameter list
with an `RGBX` input image. -/
theorem validateWarpAffine_witness :
    ((validateWarpAffine
        ⟨VxType.int32, VxType.int32, VxType.float32, VxType.float32,
          VxType.float32, VxType.float32, VxType.float32, VxType.float32,
          VxDfImage.RGBX, 24, 32⟩ ⟨VxDfImage.VIRT, 0, 0⟩).1 =
        VxStatus.success ↔
      (WarpAffineParams.mk VxType.int32 VxType.int32 VxType.float32
          VxType.float32 VxType.float32 VxType.float32 VxType.float32
          VxType.float32 VxDfImage.RGBX 24 32).inputFormat = VxDfImage.U8 ∨
      (WarpAffineParams.mk VxType.int32 VxType.int32 VxType.float32
          VxType.float32 VxType.float32 VxType.float32 VxType.float32
          VxType.float32 VxDfImage.RGBX 24 32).inputFormat = VxDfImage.RGB) ∧
    ((WarpAffineParams.mk VxType.int32 VxType.int32 VxType.float32
        VxType.float32 VxType.float32 VxType.float32 VxType.float32
        VxType.float32 VxDfImage.RGBX 24 32).inputFormat ≠ VxDfImage.U8 →
      (WarpAffineParams.mk VxType.int32 VxType.int32 VxType.float32
        VxType.float32 VxType.float32 VxType.float32 VxType.float32
        VxType.float32 VxDfImage.RGBX 24 32).inputFormat ≠ VxDfImage.RGB →
      (validateWarpAffine
        ⟨VxType.int32, VxType.int32, VxType.float32, VxType.float32,
          VxType.float32, VxType.float32, VxType.float32, VxType.float32,
          VxDfImage.RGBX, 24, 32⟩ ⟨VxDfImage.VIRT, 0, 0⟩).1 =
        VxStatus.errorInvalidValue) ∧
    (validateWarpAffine
        ⟨VxType.int32, VxType.int32, VxType.float32, VxType.float32,
          VxType.float32, VxType.float32, VxType.float32, VxType.float32,
          VxDfImage.RGBX, 24, 32⟩ ⟨VxDfImage.VIRT, 0, 0⟩).2.height =
      (WarpAffineParams.mk VxType.int32 VxType.int32 VxType.float32
        VxType.float32 VxType.float32 VxType.float32 VxType.float32
        VxType.float32 VxDfImage.RGBX 24 32).outputHeight ∧
    (validateWarpAffine
        ⟨VxType.int32, VxType.int32, VxType.float32, VxType.float32,
          VxType.float32, VxType.float32, VxType.float32, VxType.float32,
          VxDfImage.RGBX, 24, 32⟩ ⟨VxDfImage.VIRT, 0, 0⟩).2.width =
      (WarpAffineParams.mk VxType.int32 VxType.int32 VxType.float32
        VxType.float32 VxType.float32 VxType.float32 VxType.float32
        VxType.float32 VxDfImage.RGBX 24 32).outputWidth :=
  validateWarpAffine_spec
    ⟨VxType.int32, VxType.int32, VxType.float32, VxType.float32,
      VxType.float32, VxType.float32, VxType.float32, VxType.float32,
      VxDfImage.RGBX, 24, 32⟩ ⟨VxDfImage.VIRT, 0, 0⟩
    rfl rfl rfl rfl rfl rfl rfl rfl

/-- A loop of stores into a flat buffer, as the ordered list of its
(index, value) writes applied left to right. -/
def applyWrites {β : Type} (ws : List (Nat × β)) (buf : Nat → β) : Nat → β :=
  ws.foldl (fun b p => Function.update b p.1 p.2) buf

lemma applyWrites_nil {β : Type} (buf : Nat → β) : applyWrites [] buf = buf :=
  rfl

lemma applyWrites_cons {β : Type} (p : Nat × β) (ws : List (Nat × β))
    (buf : Nat → β) :
    applyWrites (p :: ws) buf = applyWrites ws (Function.update buf p.1 p.2) :=
  rfl

lemma applyWrites_not_mem {β : Type} (ws : List (Nat × β)) (buf : Nat → β)
    (x : Nat) (hx : ∀ p ∈ ws, p.1 ≠ x) :
    applyWrites ws buf x = buf x := by
  induction ws generalizing buf with
  | nil => rfl
  | cons p rest ih =>
    rw [applyWrites_cons, ih _ (fun q hq => hx q (by simp [hq]))]
    exact Function.update_noteq (fun h => hx p (by simp) h.symm) _ _

lemma applyWrites_unique {β : Type} (ws : List (Nat × β)) (buf : Nat → β)
    (idx : Nat) (val : β) (hmem : (idx, val) ∈ ws)
    (huniq : ∀ q ∈ ws, q.1 = idx → q = (idx, val)) :
    applyWrites ws buf idx = val := by
  induction ws generalizing buf with
  | nil => simp at hmem
  | cons p rest ih =>
    rw [applyWrites_cons]
    by_cases hmem' : (idx, val) ∈ rest
    · exact ih _ hmem' (fun q hq => huniq q (by simp [hq]))
    · have hp : p = (idx, val) := by
        rcases List.mem_cons.mp hmem with h | h
        · exact h.symm
        · exact absurd h hmem'
      have hrest : ∀ q ∈ rest, q.1 ≠ idx := by
        intro q hq hqi
        exact hmem' (huniq q (by simp [hq]) hqi ▸ by simp [hq])
      rw [applyWrites_not_mem rest _ idx hrest, hp]
      exact Function.update_same _ _ _

/-- Embeds `RaliTensorFormat`: interleaved (NHWC) or planar (NCHW) output
layout. -/
inductive RaliTensorFormat
  | NHWC
  | NCHW
deriving DecidableEq, Repr

/-- The writes of the NHWC (interleaved) loop nest of
`copy_out_tensor`'s host path for one output image: for each
`channel_idx < c` and pixel `i < w*h`, store at
`dest_buf_offset + channel_idx + i*c` the value
`offset[channel_idx] + multiplier[channel_idx] * in_buffer[i*c + (c-channel_idx-1 or channel_idx)]`. -/
def writeListNHWC (dest_buf_offset : Nat) (in_buffer : Nat → Nat)
    (w h c : Nat) (multiplier offset : List ℚ) (reverse_channels : Bool) :
    List (Nat × ℚ) :=
  (List.range c).flatMap (fun channel_idx =>
    (List.range (w * h)).map (fun i =>
      (dest_buf_offset + channel_idx + i * c,
        offset.getD channel_idx 0 + multiplier.getD channel_idx 0 *
          (if reverse_channels then
            ((in_buffer (i * c + c - channel_idx - 1) : Nat) : ℚ)
          else
            ((in_buffer (i * c + channel_idx) : Nat) : ℚ)))))

/-- The writes of the NCHW (planar) loop nest of `copy_out_tensor`'s
host path for one output image: for each `channel_idx < c` and pixel
`i < w*h`, store at `dest_buf_offset + channel_idx*(w*h) + i` the value
`offset[channel_idx] + multiplier[channel_idx] * in_buffer[c*i + (c-channel_idx-1 or channel_idx)]`. -/
def writeListNCHW (dest_buf_offset : Nat) (in_buffer : Nat → Nat)
    (w h c : Nat) (multiplier offset : List ℚ) (reverse_channels : Bool) :
    List (Nat × ℚ) :=
  (List.range c).flatMap (fun channel_idx =>
    (List.range (w * h)).map (fun i =>
      (dest_buf_offset + channel_idx * (w * h) + i,
        offset.getD channel_idx 0 + multiplier.getD channel_idx 0 *
          (if reverse_channels then
            ((in_buffer (c * i + c - channel_idx - 1) : Nat) : ℚ)
          else
            ((in_buffer (c * i + channel_idx) : Nat) : ℚ)))))

/-- The effect of `copy_out_tensor`'s host path for one output image:
apply the per-format loop nest's writes to the destination buffer. -/
def copyImageHost (format : RaliTensorFormat) (dest_buf_offset : Nat)
    (in_buffer : Nat → Nat) (w h c : Nat) (multiplier offset : List ℚ)
    (reverse_channels : Bool) (out_ptr : Nat → ℚ) : Nat → ℚ :=
  match format with
  | RaliTensorFormat.NHWC =>
    applyWrites
      (writeListNHWC dest_buf_offset in_buffer w h c multiplier offset
        reverse_channels) out_ptr
  | RaliTensorFormat.NCHW =>
    applyWrites
      (writeListNCHW dest_buf_offset in_buffer w h c multiplier offset
        reverse_channels) out_ptr

/-- The loop of `copy_out_tensor`'s host path over `_output_images`:
converts each image at the running `dest_buf_offset`, which advances by
`w*h*c` (`single_output_image_size`) per image. -/
def copyImagesHost (format : RaliTensorFormat) (w h c : Nat)
    (multiplier offset : List ℚ) (reverse_channels : Bool) :
    List (Nat → Nat) → Nat → (Nat → ℚ) → (Nat → ℚ)
  | [], _, out_ptr => out_ptr
  | in_buffer :: rest, dest_buf_offset, out_ptr =>
    copyImagesHost format w h c multiplier offset reverse_channels rest
      (dest_buf_offset + w * h * c)
      (copyImageHost format dest_buf_offset in_buffer w h c multiplier offset
        reverse_channels out_ptr)

/-- Embeds `MasterGraph::copy_out_tensor` for the host memory type: `w`, `h`,
`c` are taken from `_output_image_info`, the multiplier and offset
arrays are `{multiplier0,1,2}` and `{offset0,1,2}`, and the output images'
buffers are converted in binding order starting at destination offset 0. -/
def MasterGraph.copy_out_tensor (format : RaliTensorFormat)
    (images : List (Nat → Nat)) (info : ImageInfo)
    (multiplier0 multiplier1 multiplier2 offset0 offset1 offset2 : ℚ)
    (reverse_channels : Bool) (out_ptr : Nat → ℚ) : Nat → ℚ :=
  copyImagesHost format info.width info.height_batch info.color_plane_count
    [multiplier0, multiplier1, multiplier2] [offset0, offset1, offset2]
    reverse_channels images 0 out_ptr

/-- Destination index of channel `ch` of pixel `i` inside one image's
slice of the output tensor: `ch + i*c` for NHWC (channel-minor),
`ch*(w*h) + i` for NCHW (channel-major). -/
def destIndex (format : RaliTensorFormat) (w h c ch i : Nat) : Nat :=
  match format with
  | RaliTensorFormat.NHWC => ch + i * c
  | RaliTensorFormat.NCHW => ch * (w * h) + i

/-- The value `copy_out_tensor`'s host path stores for channel `ch` of
pixel `i`: the per-channel affine normalization of the interleaved source
byte, read at channel `ch` or at the mirrored channel `c - ch - 1`. -/
def normValue (in_buffer : Nat → Nat) (c : Nat) (multiplier offset : List ℚ)
    (reverse_channels : Bool) (ch i : Nat) : ℚ :=
  offset.getD ch 0 + multiplier.getD ch 0 *
    (if reverse_channels then ((in_buffer (i * c + c - ch - 1) : Nat) : ℚ)
     else ((in_buffer (i * c + ch) : Nat) : ℚ))

lemma destIndex_lt (format : RaliTensorFormat) (w h c ch i : Nat)
    (hch : ch < c) (hi : i < w * h) :
    destIndex format w h c ch i < w * h * c := by
  cases format with
  | NHWC =>
    have h1 : (i + 1) * c ≤ w * h * c := Nat.mul_le_mul_right c hi
    have h2 : (i + 1) * c = i * c + c := by ring
    simp only [destIndex]
    omega
  | NCHW =>
    have h1 : (ch + 1) * (w * h) ≤ c * (w * h) := Nat.mul_le_mul_right (w * h) hch
    have h2 : (ch + 1) * (w * h) = ch * (w * h) + w * h := by ring
    have h3 : c * (w * h) = w * h * c := by ring
    simp only [destIndex]
    omega

lemma nhwc_index_inj (c ch ch' i i' : Nat) (hch : ch < c) (hch' : ch' < c)
    (h : ch + i * c = ch' + i' * c) : ch = ch' ∧ i = i' := by
  have h1 : (ch + i * c) % c = ch := by
    rw [Nat.add_mul_mod_self_right, Nat.mod_eq_of_lt hch]
  have h2 : (ch' + i' * c) % c = ch' := by
    rw [Nat.add_mul_mod_self_right, Nat.mod_eq_of_lt hch']
  have hcc : ch = ch' := by rw [← h1, ← h2, h]
  subst hcc
  have hic : i * c = i' * c := by omega
  have hc : 0 < c := by omega
  exact ⟨rfl, Nat.eq_of_mul_eq_mul_right hc hic⟩

lemma nchw_index_inj (s ch ch' i i' : Nat) (hi : i < s) (hi' : i' < s)
    (h : ch * s + i = ch' * s + i') : ch = ch' ∧ i = i' := by
  have h1 : (ch * s + i) % s = i := by
    rw [Nat.add_comm, Nat.add_mul_mod_self_right, Nat.mod_eq_of_lt hi]
  have h2 : (ch' * s + i') % s = i' := by
    rw [Nat.add_comm, Nat.add_mul_mod_self_right, Nat.mod_eq_of_lt hi']
  have hii : i = i' := by rw [← h1, ← h2, h]
  subst hii
  have hcs : ch * s = ch' * s := by omega
  have hs : 0 < s := by omega
  exact ⟨Nat.eq_of_mul_eq_mul_right hs hcs, rfl⟩

lemma writeListNHWC_index_bounds (dest : Nat) (inb : Nat → Nat)
    (w h c : Nat) (mult offs : List ℚ) (rev : Bool) :
    ∀ p ∈ writeListNHWC dest inb w h c mult offs rev,
      dest ≤ p.1 ∧ p.1 < dest + w * h * c := by
  intro p hp
  simp only [writeListNHWC, List.mem_flatMap, List.mem_map, List.mem_range] at hp
  rcases hp with ⟨ch, hch, i, hi, rfl⟩
  have := destIndex_lt RaliTensorFormat.NHWC w h c ch i hch hi
  simp only [destIndex] at this
  constructor
  · omega
  · omega

lemma writeListNCHW_index_bounds (dest : Nat) (inb : Nat → Nat)
    (w h c : Nat) (mult offs : List ℚ) (rev : Bool) :
    ∀ p ∈ writeListNCHW dest inb w h c mult offs rev,
      dest ≤ p.1 ∧ p.1 < dest + w * h * c := by
  intro p hp
  simp only [writeListNCHW, List.mem_flatMap, List.mem_map, List.mem_range] at hp
  rcases hp with ⟨ch, hch, i, hi, rfl⟩
  have := destIndex_lt RaliTensorFormat.NCHW w h c ch i hch hi
  simp only [destIndex] at this
  constructor
  · omega
  · omega

lemma copyImageHost_not_touched (format : RaliTensorFormat) (dest : Nat)
    (inb : Nat → Nat) (w h c : Nat) (mult offs : List ℚ) (rev : Bool)
    (out : Nat → ℚ) (x : Nat) (hx : x < dest ∨ dest + w * h * c ≤ x) :
    copyImageHost format dest inb w h c mult offs rev out x = out x := by
  cases format with
  | NHWC =>
    apply applyWrites_not_mem
    intro p hp
    have := writeListNHWC_index_bounds dest inb w h c mult offs rev p hp
    omega
  | NCHW =>
    apply applyWrites_not_mem
    intro p hp
    have := writeListNCHW_index_bounds dest inb w h c mult offs rev p hp
    omega

lemma copyImageHost_at (format : RaliTensorFormat) (dest : Nat)
    (inb : Nat → Nat) (w h c : Nat) (mult offs : List ℚ) (rev : Bool)
    (out : Nat → ℚ) (ch i : Nat) (hch : ch < c) (hi : i < w * h) :
    copyImageHost format dest inb w h c mult offs rev out
      (dest + destIndex format w h c ch i) =
      normValue inb c mult offs rev ch i := by
  cases format with
  | NHWC =>
    simp only [destIndex, normValue, copyImageHost]
    rw [← Nat.add_assoc]
    apply applyWrites_unique
    · simp only [writeListNHWC, List.mem_flatMap, List.mem_map, List.mem_range]
      exact ⟨ch, hch, i, hi, rfl⟩
    · intro q hq hqi
      simp only [writeListNHWC, List.mem_flatMap, List.mem_map,
        List.mem_range] at hq
      rcases hq with ⟨ch', hch', i', hi', rfl⟩
      have hinj := nhwc_index_inj c ch' ch i' i hch' hch (by omega)
      rcases hinj with ⟨e1, e2⟩
      subst e1
      subst e2
      rfl
  | NCHW =>
    simp only [destIndex, normValue, copyImageHost]
    rw [← Nat.add_assoc, Nat.mul_comm i c]
    apply applyWrites_unique
    · simp only [writeListNCHW, List.mem_flatMap, List.mem_map, List.mem_range]
      exact ⟨ch, hch, i, hi, rfl⟩
    · intro q hq hqi
      simp only [writeListNCHW, List.mem_flatMap, List.mem_map,
        List.mem_range] at hq
      rcases hq with ⟨ch', hch', i', hi', rfl⟩
      have hinj := nchw_index_inj (w * h) ch' ch i' i hi' hi (by omega)
      rcases hinj with ⟨e1, e2⟩
      subst e1
      subst e2
      rfl

lemma copyImagesHost_lt (format : RaliTensorFormat) (w h c : Nat)
    (mult offs : List ℚ) (rev : Bool) (images : List (Nat → Nat))
    (dest : Nat) (out : Nat → ℚ) (x : Nat) (hx : x < dest) :
    copyImagesHost format w h c mult offs rev images dest out x = out x := by
  induction images generalizing dest out with
  | nil => rfl
  | cons inb rest ih =>
    show copyImagesHost format w h c mult offs rev rest (dest + w * h * c)
      (copyImageHost format dest inb w h c mult offs rev out) x = out x
    rw [ih (dest + w * h * c) _ (by omega)]
    exact copyImageHost_not_touched format dest inb w h c mult offs rev out x
      (Or.inl hx)

lemma copyImagesHost_at (format : RaliTensorFormat) (w h c : Nat)
    (mult offs : List ℚ) (rev : Bool) (images : List (Nat → Nat))
    (dest : Nat) (out : Nat → ℚ) (k ch i : Nat) (hk : k < images.length)
    (hch : ch < c) (hi : i < w * h) :
    copyImagesHost format w h c mult offs rev images dest out
      (dest + k * (w * h * c) + destIndex format w h c ch i) =
      normValue (images.get ⟨k, hk⟩) c mult offs rev ch i := by
  induction images generalizing dest out k with
  | nil => simp at hk
  | cons inb rest ih =>
    cases k with
    | zero =>
      show copyImagesHost format w h c mult offs rev rest (dest + w * h * c)
        (copyImageHost format dest inb w h c mult offs rev out)
        (dest + 0 * (w * h * c) + destIndex format w h c ch i) = _
      have hidx : dest + 0 * (w * h * c) + destIndex format w h c ch i =
          dest + destIndex format w h c ch i := by
        simp
      rw [hidx,
        copyImagesHost_lt format w h c mult offs rev rest (dest + w * h * c) _ _
          (by have := destIndex_lt format w h c ch i hch hi; omega),
        copyImageHost_at format dest inb w h c mult offs rev out ch i hch hi]
      rfl
    | succ k' =>
      show copyImagesHost format w h c mult offs rev rest (dest + w * h * c)
        (copyImageHost format dest inb w h c mult offs rev out)
        (dest + (k' + 1) * (w * h * c) + destIndex format w h c ch i) = _
      have harith : dest + (k' + 1) * (w * h * c) + destIndex format w h c ch i =
          (dest + w * h * c) + k' * (w * h * c) + destIndex format w h c ch i := by
        have : (k' + 1) * (w * h * c) = k' * (w * h * c) + w * h * c := by ring
        omega
      rw [harith,
        ih _ _ k' (by exact Nat.lt_of_succ_lt_succ hk)]
      rfl

/-- C1: the host-memory path of `copy_out_tensor` writes, for output
image `k`, channel `ch < C` and pixel `i < w*h`, the value
`offset[ch] + multiplier[ch] * source` at index
`k*(w*h*C) + destIndex` — where `destIndex` is `ch + i*C` for NHWC and
`ch*(w*h) + i` for NCHW, and `source` is the input byte of channel `ch`
of pixel `i` when `reverse_channels` is false and of channel `C-1-ch`
when it is true. -/
theorem copy_out_tensor_host_spec (format : RaliTensorFormat)
    (images : List (Nat → Nat)) (info : ImageInfo)
    (multiplier0 multiplier1 multiplier2 offset0 offset1 offset2 : ℚ)
    (reverse_channels : Bool) (out_ptr : Nat → ℚ) (k ch i : Nat)
    (hk : k < images.length) (hch : ch < info.color_plane_count)
    (hi : i < info.width * info.height_batch)
    (_hc : info.color_plane_count ≤ 3) :
    MasterGraph.copy_out_tensor format images info multiplier0 multiplier1
        multiplier2 offset0 offset1 offset2 reverse_channels out_ptr
      (k * (info.width * info.height_batch * info.color_plane_count) +
        destIndex format info.width info.height_batch info.color_plane_count
          ch i) =
      [offset0, offset1, offset2].getD ch 0 +
        [multiplier0, multiplier1, multiplier2].getD ch 0 *
          (if reverse_channels then
            ((images.get ⟨k, hk⟩
                (i * info.color_plane_count + info.color_plane_count - ch - 1) :
              Nat) : ℚ)
          else
            ((images.get ⟨k, hk⟩ (i * info.color_plane_count + ch) : Nat) : ℚ)) := by
  have := copyImagesHost_at format info.width info.height_batch
    info.color_plane_count [multiplier0, multiplier1, multiplier2]
    [offset0, offset1, offset2] reverse_channels images 0 out_ptr k ch i hk
    hch hi
  rw [Nat.zero_add] at this
  exact this

/-- Witness for `copy_out_tensor_host_spec`: a 2×1 RGB image whose bytes
are `in_buffer[x] = x`, NHWC layout with reversed channels, image 0,
channel 0, pixel 1: the output at index `0 + 1*3 = 3` reads source byte
`1*3 + 3 - 0 - 1 = 5`. -/
theorem copy_out_tensor_host_witness :
    MasterGraph.copy_out_tensor RaliTensorFormat.NHWC [fun x => x]
        ⟨2, 1, 3, 0, RaliMemType.HOST⟩ 2 3 5 7 11 13 true (fun _ => 0)
      (0 * ((ImageInfo.mk 2 1 3 0 RaliMemType.HOST).width *
          (ImageInfo.mk 2 1 3 0 RaliMemType.HOST).height_batch *
          (ImageInfo.mk 2 1 3 0 RaliMemType.HOST).color_plane_count) +
        destIndex RaliTensorFormat.NHWC
          (ImageInfo.mk 2 1 3 0 RaliMemType.HOST).width
          (ImageInfo.mk 2 1 3 0 RaliMemType.HOST).height_batch
          (ImageInfo.mk 2 1 3 0 RaliMemType.HOST).color_plane_count 0 1) =
      [(7 : ℚ), 11, 13].getD 0 0 +
        [(2 : ℚ), 3, 5].getD 0 0 *
          (if true then
            ((([fun x => x].get ⟨0, by decide⟩)
                (1 * (ImageInfo.mk 2 1 3 0 RaliMemType.HOST).color_plane_count +
                  (ImageInfo.mk 2 1 3 0 RaliMemType.HOST).color_plane_count -
                  0 - 1) : Nat) : ℚ)
          else
            ((([fun x => x].get ⟨0, by decide⟩)
                (1 * (ImageInfo.mk 2 1 3 0 RaliMemType.HOST).color_plane_count +
                  0) : Nat) : ℚ)) :=
  copy_out_tensor_host_spec RaliTensorFormat.NHWC [fun x => x]
    ⟨2, 1, 3, 0, RaliMemType.HOST⟩ 2 3 5 7 11 13 true (fun _ => 0) 0 0 1
    (by decide) (by decide) (by decide) (by decide)

/-- The writes of one `memcpy(out_ptr + dest_buf_offset, buffer, size)`
in `copy_output(unsigned char*)`: `size` bytes of the image buffer at
destination offsets `dest_buf_offset, ..., dest_buf_offset + size - 1`. -/
def writeListMemcpy (dest_buf_offset : Nat) (buffer : Nat → Nat)
    (size : Nat) : List (Nat × Nat) :=
  (List.range size).map (fun j => (dest_buf_offset + j, buffer j))

/-- The host-memory loop of `copy_output(unsigned char*)`: one `memcpy`
of `size` bytes per output image, `dest_buf_offset` advancing by `size`
per image. -/
def copyOutputHost (size : Nat) :
    List (Nat → Nat) → Nat → (Nat → Nat) → (Nat → Nat)
  | [], _, out_ptr => out_ptr
  | buffer :: rest, dest_buf_offset, out_ptr =>
    copyOutputHost size rest (dest_buf_offset + size)
      (applyWrites (writeListMemcpy dest_buf_offset buffer size) out_ptr)

/-- Embeds `MasterGraph::copy_output(unsigned char*)` for the host memory type:
`size` is width × batch-height × plane-count of `_output_image_info`, and
the output images' buffers are copied in binding order starting at
destination offset 0. -/
def MasterGraph.copy_output (images : List (Nat → Nat)) (info : ImageInfo)
    (out_ptr : Nat → Nat) : Nat → Nat :=
  copyOutputHost
    (info.width * info.height_batch * info.color_plane_count) images 0 out_ptr

lemma writeListMemcpy_index_bounds (dest : Nat) (buffer : Nat → Nat)
    (size : Nat) :
    ∀ p ∈ writeListMemcpy dest buffer size,
      dest ≤ p.1 ∧ p.1 < dest + size := by
  intro p hp
  simp only [writeListMemcpy, List.mem_map, List.mem_range] at hp
  rcases hp with ⟨j, hj, rfl⟩
  omega

lemma copyOutputHost_lt (size : Nat) (images : List (Nat → Nat))
    (dest : Nat) (out : Nat → Nat) (x : Nat) (hx : x < dest) :
    copyOutputHost size images dest out x = out x := by
  induction images generalizing dest out with
  | nil => rfl
  | cons buffer rest ih =>
    show copyOutputHost size rest (dest + size)
      (applyWrites (writeListMemcpy dest buffer size) out) x = out x
    rw [ih (dest + size) _ (by omega)]
    apply applyWrites_not_mem
    intro p hp
    have := writeListMemcpy_index_bounds dest buffer size p hp
    omega

lemma copyOutputHost_ge (size : Nat) (images : List (Nat → Nat))
    (dest : Nat) (out : Nat → Nat) (x : Nat)
    (hx : dest + images.length * size ≤ x) :
    copyOutputHost size images dest out x = out x := by
  induction images generalizing dest out with
  | nil => rfl
  | cons buffer rest ih =>
    show copyOutputHost size rest (dest + size)
      (applyWrites (writeListMemcpy dest buffer size) out) x = out x
    have hlen : (buffer :: rest).length * size = rest.length * size + size := by
      simp [List.length_cons]
      ring
    rw [ih (dest + size) _ (by omega)]
    apply applyWrites_not_mem
    intro p hp
    have := writeListMemcpy_index_bounds dest buffer size p hp
    omega

lemma copyOutputHost_at (size : Nat) (images : List (Nat → Nat))
    (dest : Nat) (out : Nat → Nat) (k j : Nat) (hk : k < images.length)
    (hj : j < size) :
    copyOutputHost size images dest out (dest + k * size + j) =
      images.get ⟨k, hk⟩ j := by
  induction images generalizing dest out k with
  | nil => simp at hk
  | cons buffer rest ih =>
    cases k with
    | zero =>
      show copyOutputHost size rest (dest + size)
        (applyWrites (writeListMemcpy dest buffer size) out)
        (dest + 0 * size + j) = _
      have hidx : dest + 0 * size + j = dest + j := by omega
      rw [hidx, copyOutputHost_lt size rest (dest + size) _ _ (by omega)]
      have : applyWrites (writeListMemcpy dest buffer size) out (dest + j) =
          buffer j := by
        apply applyWrites_unique
        · simp only [writeListMemcpy, List.mem_map, List.mem_range]
          exact ⟨j, hj, rfl⟩
        · intro q hq hqi
          simp only [writeListMemcpy, List.mem_map, List.mem_range] at hq
          rcases hq with ⟨j', hj', rfl⟩
          have : j' = j := by omega
          subst this
          rfl
      rw [this]
      rfl
    | succ k' =>
      show copyOutputHost size rest (dest + size)
        (applyWrites (writeListMemcpy dest buffer size) out)
        (dest + (k' + 1) * size + j) = _
      have harith : dest + (k' + 1) * size + j =
          (dest + size) + k' * size + j := by
        have : (k' + 1) * size = k' * size + size := by ring
        omega
      rw [harith, ih _ _ k' (Nat.lt_of_succ_lt_succ hk)]
      rfl

/-- C5: for B output images of common shape W×H×C, the unified output
tensor allocated by `build()` holds exactly `W*H*C*B` float-sized
elements whenever one is allocated (the OCL path; the host path allocates
none), and `copy_output(unsigned char*)` writes each image's `W*H*C`
bytes at destination offset `k*(W*H*C)` in binding order and touches
nothing at or beyond `B*(W*H*C)`. -/
theorem output_tensor_size_and_copy_output (info : ImageInfo)
    (images : List (Nat → Nat)) (out_ptr : Nat → Nat) (k j x : Nat)
    (hk : k < images.length)
    (hj : j < info.width * info.height_batch * info.color_plane_count)
    (hx : images.length *
        (info.width * info.height_batch * info.color_plane_count) ≤ x) :
    (∀ t0 sz, allocate_output_tensor info images.length t0 = some sz →
        t0 = none →
      sz = info.width * info.height_batch * info.color_plane_count *
        images.length) ∧
    MasterGraph.copy_output images info out_ptr
        (k * (info.width * info.height_batch * info.color_plane_count) + j) =
      images.get ⟨k, hk⟩ j ∧
    MasterGraph.copy_output images info out_ptr x = out_ptr x := by
  refine ⟨?_, ?_, ?_⟩
  · intro t0 sz hsz ht0
    subst ht0
    unfold allocate_output_tensor at hsz
    cases hmt : info.mem_type with
    | OCL => rw [hmt] at hsz; simp at hsz; omega
    | HOST => rw [hmt] at hsz; simp at hsz
  · have := copyOutputHost_at
      (info.width * info.height_batch * info.color_plane_count) images 0
      out_ptr k j hk hj
    rw [Nat.zero_add] at this
    exact this
  · exact copyOutputHost_ge
      (info.width * info.height_batch * info.color_plane_count) images 0
      out_ptr x (by omega)

/-- Witness for `output_tensor_size_and_copy_output`: two 2×1
single-plane images with bytes `x+10` and `x+20`, reading image 1 byte 1
(destination index 3) and untouched index 4. -/
theorem output_tensor_size_and_copy_output_witness :
    (∀ t0 sz,
      allocate_output_tensor ⟨2, 1, 1, 0, RaliMemType.OCL⟩
          ([fun x => x + 10, fun x => x + 20] : List (Nat → Nat)).length t0 =
            some sz →
        t0 = none →
      sz = (ImageInfo.mk 2 1 1 0 RaliMemType.OCL).width *
          (ImageInfo.mk 2 1 1 0 RaliMemType.OCL).height_batch *
          (ImageInfo.mk 2 1 1 0 RaliMemType.OCL).color_plane_count *
        ([fun x => x + 10, fun x => x + 20] : List (Nat → Nat)).length) ∧
    MasterGraph.copy_output [fun x => x + 10, fun x => x + 20]
        ⟨2, 1, 1, 0, RaliMemType.OCL⟩ (fun _ => 0)
        (1 * ((ImageInfo.mk 2 1 1 0 RaliMemType.OCL).width *
            (ImageInfo.mk 2 1 1 0 RaliMemType.OCL).height_batch *
            (ImageInfo.mk 2 1 1 0 RaliMemType.OCL).color_plane_count) + 1) =
      ([fun x => x + 10, fun x => x + 20] : List (Nat → Nat)).get
        ⟨1, by decide⟩ 1 ∧
    MasterGraph.copy_output [fun x => x + 10, fun x => x + 20]
        ⟨2, 1, 1, 0, RaliMemType.OCL⟩ (fun _ => 0) 4 = (fun _ => (0 : Nat)) 4 :=
  output_tensor_size_and_copy_output ⟨2, 1, 1, 0, RaliMemType.OCL⟩
    [fun x => x + 10, fun x => x + 20] (fun _ => 0) 1 1 4 (by decide)
    (by decide) (by decide)

end MIVisionX
